import Mathlib

/-!
# Verification of the urllib3 core: multipart encoder and HTTP/1.1 connection engine

This development shallowly embeds the two subsystems of the repository:

* `filepost.py` — the streaming `multipart/form-data` encoder
  (`MultipartEncoderGenerator`, `IterStreamer`);
* `sync_connection.py` — the synchronous HTTP/1.1 connection engine
  (`SyncHTTP1Connection`), whose external protocol state machine (h11) is
  modelled from its documented contract.

Python strings are embedded as `List Char`; the bytes produced by
`unicode.encode('utf-8')` are embedded as `List Nat` via an explicit UTF-8
character expansion.  Python dictionaries are embedded as ordered association
lists whose list order is the dictionary's iteration order.
-/

set_option maxRecDepth 40000

namespace Urllib3

/-- A byte, as produced on the wire. -/
abbrev Byte := Nat

/-- A Python string (sequence of unicode code points). -/
abbrev Str := List Char

/-- The UTF-8 byte expansion of one code point (what `unicode.encode('utf-8')`
emits for that character). -/
def utf8Char (c : Char) : List Byte :=
  let n := c.toNat
  if n < 0x80 then [n]
  else if n < 0x800 then
    [0xC0 + n / 64, 0x80 + n % 64]
  else if n < 0x10000 then
    [0xE0 + n / 4096, 0x80 + (n / 64) % 64, 0x80 + n % 64]
  else
    [0xF0 + n / 262144, 0x80 + (n / 4096) % 64, 0x80 + (n / 64) % 64, 0x80 + n % 64]

/-- `encode(s)` from `filepost.py`: `s.encode('utf-8')`. -/
def encode (s : Str) : List Byte :=
  s.flatMap utf8Char

/-- A character is ASCII when its UTF-8 expansion is a single byte. -/
def isAscii (c : Char) : Bool :=
  c.toNat < 0x80

/-! ## The multipart encoder (`filepost.py`) -/

/-- A field payload, one of the data kinds `MultipartEncoderGenerator`
distinguishes:

* `text`  — a `unicode` string (it has `__len__`; iteration takes the
  `isinstance(data, unicode)` branch).  A plain Python-2 byte string takes the
  final `yield unicode(data)` branch instead, but emits the same bytes for the
  ASCII data it can hold, so it is represented by the same constructor.
* `int`   — a Python integer.
* `file`  — a seekable readable (e.g. `StringIO`) positioned at the start of
  `content`; it has `seek` and `read` but neither `__len__` nor `__iter__`.
* `iterchunks` — a generator of string chunks (it has `__iter__` but no
  `__len__`, `read` or `seek`). -/
inductive Payload where
  | text (s : Str)
  | int (n : Int)
  | file (content : Str)
  | iterchunks (chunks : List Str)
  deriving DecidableEq

/-- A field value: either a bare payload or a `(filename, data)` pair. -/
inductive FieldValue where
  | plain (p : Payload)
  | filepair (filename : Str) (p : Payload)
  deriving DecidableEq

/-- The payload carried by a field value. -/
def FieldValue.payload : FieldValue → Payload
  | .plain p => p
  | .filepair _ p => p

/-- The input mapping of the encoder: field name → value, in the mapping's
iteration order. -/
abbrev Fields := List (Str × FieldValue)

/-- The decimal digits of a natural number, most significant first.  The
fuel argument bounds the number of divisions by ten; `n + 1` always
suffices. -/
def natDigits : Nat → Nat → List Char
  | 0, _ => []
  | fuel + 1, n =>
    if n < 10 then [Char.ofNat (48 + n)]
    else natDigits fuel (n / 10) ++ [Char.ofNat (48 + n % 10)]

/-- The decimal representation of a natural number. -/
def natRepr (n : Nat) : Str :=
  natDigits (n + 1) n

/-- `str(n)` for a Python integer: optional minus sign followed by the
decimal digits. -/
def intRepr : Int → Str
  | .ofNat m => natRepr m
  | .negSucc m => '-' :: natRepr (m + 1)

/-- The ASCII restriction on a payload: every character of its textual
content is ASCII, so that its Python length (a character count) coincides
with its emitted UTF-8 byte count.  Integers are unrestricted — their
decimal representation is always ASCII. -/
def payloadAscii : Payload → Prop
  | .text s => ∀ c ∈ s, isAscii c = true
  | .int _ => True
  | .file content => ∀ c ∈ content, isAscii c = true
  | .iterchunks chunks => ∀ s ∈ chunks, ∀ c ∈ s, isAscii c = true

instance : DecidablePred payloadAscii := by
  intro p
  cases p <;> simp only [payloadAscii] <;> infer_instance

/-- `get_content_type` from `filepost.py` delegates to the standard library's
`mimetypes.guess_type`, an external collaborator.  Modelled from the spec: a
filename ending in `.txt` guesses `text/plain`; an unknown extension falls
back to `application/octet-stream`. -/
def get_content_type (filename : Str) : Str :=
  if ".txt".data.isSuffixOf filename then "text/plain".data
  else "application/octet-stream".data

/-- The chunks returned by the `data.read(chunk_size)` loop of `__iter__`:
read `chunkSize` characters at a time, stopping at the first falsy (empty)
chunk.  In particular `read(0)` returns an empty string, so a zero
`chunk_size` reads nothing at all. -/
def readChunksAux (chunkSize : Nat) : Nat → Str → List Str
  | 0, _ => []
  | fuel + 1, content =>
    if chunkSize = 0 ∨ content = [] then []
    else content.take chunkSize :: readChunksAux chunkSize fuel (content.drop chunkSize)

/-- The loop runs at most `content.length` times (each kept read consumes at
least one character), so that much fuel makes `readChunksAux` total. -/
def readChunks (content : Str) (chunkSize : Nat) : List Str :=
  readChunksAux chunkSize content.length content

/-- The byte chunks `__iter__` yields for one payload, after the part
headers.  `int` data is yielded as `str(data)` — raw ASCII digit bytes,
i.e. the UTF-8 encoding of its decimal representation. -/
def payloadChunks (chunkSize : Nat) : Payload → List (List Byte)
  | .text s => [encode s]
  | .int n => [encode (intRepr n)]
  | .file content => (readChunks content chunkSize).map encode
  | .iterchunks chunks => chunks.map encode

/-- The part-header chunks `__iter__` yields for one field: the boundary
line, the `Content-Disposition` line, and the `Content-Type` line with its
trailing blank line. -/
def partHeaderChunks (boundary name : Str) : FieldValue → List (List Byte)
  | .plain _ =>
    [encode ("--".data ++ boundary ++ "\r\n".data),
     encode ("Content-Disposition: form-data; name=\"".data ++ name ++ "\"\r\n".data),
     encode ("Content-Type: text/plain\r\n\r\n".data)]
  | .filepair filename _ =>
    [encode ("--".data ++ boundary ++ "\r\n".data),
     encode ("Content-Disposition: form-data; name=\"".data ++ name
       ++ "\"; filename=\"".data ++ filename ++ "\"\r\n".data),
     encode ("Content-Type: ".data ++ get_content_type filename ++ "\r\n\r\n".data)]

/-- All chunks `__iter__` yields for one field: headers, payload, and the
closing `\r\n`. -/
def fieldChunks (boundary : Str) (chunkSize : Nat) (name : Str) (v : FieldValue) :
    List (List Byte) :=
  partHeaderChunks boundary name v ++ payloadChunks chunkSize v.payload
    ++ [encode "\r\n".data]

/-- `MultipartEncoderGenerator.__iter__`: the full chunk stream, one field at
a time in the mapping's iteration order, closed by `--<boundary>--\r\n`. -/
def multipartChunks (fields : Fields) (boundary : Str) (chunkSize : Nat) :
    List (List Byte) :=
  fields.flatMap (fun p => fieldChunks boundary chunkSize p.1 p.2)
    ++ [encode ("--".data ++ boundary ++ "--".data ++ "\r\n".data)]

/-- The full body: the concatenation of every chunk of a full iteration. -/
def bodyBytes (fields : Fields) (boundary : Str) (chunkSize : Nat) : List Byte :=
  (multipartChunks fields boundary chunkSize).flatten

/-- The sizes accumulated per field by `__len__`:
`len(data)` when the value has `__len__` (character count of a string),
`len(str(data))` for an integer, `file_size(data)` for a seekable (its
remaining character count), and `sum(len(chunk) for chunk in data)` for a
generic iterable. -/
def payloadSizeForLen : Payload → Nat
  | .text s => s.length
  | .int n => (intRepr n).length
  | .file content => content.length
  | .iterchunks chunks => (chunks.map List.length).sum

/-- The shadow value `__len__` builds in `empty_fields`: the payload is
replaced by an empty string (`''`), keeping the filename for tuple values.
The empty Python-2 string takes the `yield unicode(data)` branch and emits
zero bytes, which `Payload.text []` reproduces. -/
def FieldValue.emptied : FieldValue → FieldValue
  | .plain _ => .plain (.text [])
  | .filepair filename _ => .filepair filename (.text [])

/-- `MultipartEncoderGenerator.__len__`: the accumulated payload sizes plus
the byte count of a full iteration over `empty_fields` with the same
boundary (and the default chunk size of 8192, which the nested encoder
gets because `__len__` does not forward `self.chunk_size`). -/
def multipartLen (fields : Fields) (boundary : Str) : Nat :=
  (fields.map (fun p => payloadSizeForLen p.2.payload)).sum
    + (bodyBytes (fields.map (fun p => (p.1, p.2.emptied))) boundary 8192).length

/-! ## `IterStreamer` (`filepost.py`) -/

/-- The state of an `IterStreamer`: the chunks its iterator has not yet
produced, and the `leftover` buffer. -/
structure IterStreamerState where
  chunks : List Str
  leftover : Str
  deriving DecidableEq

/-- The `while count < size` loop of `IterStreamer.read`: starting from
`data = leftover`, pull chunks until `count ≥ size` or the iterator is
exhausted (`StopIteration` is swallowed).  Returns the accumulated `data`
and the chunks still unconsumed. -/
def readPullLoop : List Str → Str → Nat → Str × List Str
  | [], data, _ => (data, [])
  | c :: rest, data, size =>
    if data.length < size then readPullLoop rest (data ++ c) size
    else (data, c :: rest)

/-- `IterStreamer.read(size)`: returns `data[:size]`; `self.leftover` is
reassigned to `data[size:]` only when `count > size` — when the loop ended
by exhaustion with `count ≤ size`, the old leftover is kept as it was. -/
def IterStreamer.read (st : IterStreamerState) (size : Nat) :
    Str × IterStreamerState :=
  let r := readPullLoop st.chunks st.leftover size
  let data := r.1
  let leftover := if size < data.length then data.drop size else st.leftover
  (data.take size, ⟨r.2, leftover⟩)

/-- Run a sequence of `read` calls, collecting the returned strings. -/
def IterStreamer.readSeq (st : IterStreamerState) : List Nat → List Str × IterStreamerState
  | [] => ([], st)
  | size :: rest =>
    let r := IterStreamer.read st size
    let r' := IterStreamer.readSeq r.2 rest
    (r.1 :: r'.1, r'.2)

/-! ## The connection engine (`sync_connection.py`)

The engine delegates HTTP framing to the external h11 state machine.  That
collaborator is embedded from its contract as stated by the specification
(§6): role states `IDLE`/`DONE`/`MUST_CLOSE`/…, events
`Request`/`Data`/`EndOfMessage`/`Response`, the `NEED_DATA` sentinel and
`ConnectionClosed`, `send`, `receive_data` (empty bytes meaning EOF),
`next_event` and `start_next_cycle`.  Byte-level parsing is abstracted: the
network is scripted as the sequence of recv results, each already parsed
into the protocol events it completes. -/

/-- A role state of the protocol state machine. -/
inductive NodeState where
  | idle | sendBody | done | mustClose | closed
  deriving DecidableEq

/-- A server-to-client protocol event. -/
inductive InEvent where
  | response (status : Nat) (httpVersion : Str)
  | data (bytes : List Byte)
  | endOfMessage
  deriving DecidableEq

/-- What one successful `recv` hands to `receive_data`: either empty bytes
(the peer closed; EOF for the state machine) or bytes that parse into the
given (possibly empty) list of completed events. -/
inductive NetData where
  | eof
  | events (evs : List InEvent)
  deriving DecidableEq

/-- The h11 connection object: both role states, the parsed-but-undelivered
events, and whether EOF has been fed in. -/
structure StateMachine where
  ourState : NodeState
  theirState : NodeState
  pending : List InEvent
  eofSeen : Bool
  deriving DecidableEq

/-- What `next_event` can return. -/
inductive OutEvent where
  | needData
  | connectionClosed
  | ev (e : InEvent)
  deriving DecidableEq

/-- A client-to-server protocol event handed to `send`. -/
inductive ClientEvent where
  | request
  | data (bytes : List Byte)
  | endOfMessage
  deriving DecidableEq

/-- `send`: the client role advances to SEND_BODY on the request headers and
to DONE on end-of-message. -/
def StateMachine.send (sm : StateMachine) : ClientEvent → StateMachine
  | .request => { sm with ourState := .sendBody }
  | .data _ => sm
  | .endOfMessage => { sm with ourState := .done }

/-- `receive_data`: empty bytes record EOF, anything else appends the events
those bytes complete. -/
def StateMachine.receiveData (sm : StateMachine) : NetData → StateMachine
  | .eof => { sm with eofSeen := true }
  | .events evs => { sm with pending := sm.pending ++ evs }

/-- The server role's transition when one of its events is delivered:
SEND_BODY once the response headers are out, DONE at end-of-message. -/
def theirTransition (st : NodeState) : InEvent → NodeState
  | .response _ _ => .sendBody
  | .data _ => st
  | .endOfMessage => .done

/-- `next_event`: deliver the next pending event (advancing the server
role), report `ConnectionClosed` after EOF, and `NEED_DATA` otherwise. -/
def StateMachine.nextEvent (sm : StateMachine) : OutEvent × StateMachine :=
  match sm.pending with
  | e :: rest =>
    (.ev e, { sm with pending := rest, theirState := theirTransition sm.theirState e })
  | [] =>
    if sm.eofSeen then (.connectionClosed, { sm with theirState := .closed })
    else (.needData, sm)

/-- `start_next_cycle`: both roles back to IDLE. -/
def StateMachine.startNextCycle (sm : StateMachine) : StateMachine :=
  { sm with ourState := .idle, theirState := .idle }

/-- The engine state the claims observe: whether the socket and selector are
held, the state machine, and the TLS verification flag. -/
structure Engine where
  sockOpen : Bool
  selectorOpen : Bool
  sm : Option StateMachine
  isVerified : Bool
  deriving DecidableEq

/-- `SyncHTTP1Connection.close`: if a socket is held, restore blocking mode,
close it and drop it; if a selector is held, close and drop it; drop the
state machine. -/
def Engine.close (e : Engine) : Engine :=
  let e := if e.sockOpen then { e with sockOpen := false } else e
  let e := if e.selectorOpen then { e with selectorOpen := false } else e
  { e with sm := none }

/-- The states in which the connection may be kept after end-of-message. -/
def continueStates : List NodeState := [.idle, .done]

/-- `SyncHTTP1Connection._reset`: one `next_event` query; keep the
connection only when it reports `NEED_DATA` with both roles in
{IDLE, DONE}, starting a new cycle when both are DONE; close otherwise.
(The code is only reached with a state machine present; on `none` the
Python would fail on the missing attribute, which no modelled path
exercises.) -/
def Engine.reset (e : Engine) : Engine :=
  match e.sm with
  | none => e
  | some sm =>
    let r := sm.nextEvent
    let mustClose :=
      r.1 ≠ .needData ∨ r.2.ourState ∉ continueStates ∨ r.2.theirState ∉ continueStates
    if mustClose then e.close
    else if r.2.ourState = .done ∧ r.2.theirState = .done then
      { e with sm := some r.2.startNextCycle }
    else { e with sm := some r.2 }

/-- The error taxonomy of the engine paths modelled here.  `wouldBlock`
stands for a send loop waiting forever on an exhausted script, `outOfFuel`
for a response loop that never completes, `notConnected` for the missing
state machine of a never-connected engine. -/
inductive EngineErr where
  | protocolError
  | badVersion (version : Str)
  | readTimeout
  | wouldBlock
  | outOfFuel
  | notConnected
  deriving DecidableEq

/-- `_read_until_event`: query `next_event`; while it reports `NEED_DATA`,
wait for the socket and feed the next recv result in (an exhausted script is
a `select` that never becomes ready within the read timeout).  Returns the
first event other than `NEED_DATA` together with the unconsumed script. -/
def readUntilEvent (sm : StateMachine) :
    List NetData → Except EngineErr (OutEvent × StateMachine × List NetData)
  | [] =>
    match sm.nextEvent with
    | (.needData, _) => .error .readTimeout
    | (e, sm') => .ok (e, sm', [])
  | d :: rest =>
    match sm.nextEvent with
    | (.needData, _) => readUntilEvent (sm.receiveData d) rest
    | (e, sm') => .ok (e, sm', d :: rest)

/-- The result of one write attempt on the non-blocking socket: would-block,
`n` bytes accepted, or a TLS want-read (after which the code waits for
readability and retries; the retry outcome is the next script step). -/
inductive SendResult where
  | eagain
  | wrote (n : Nat)
  | wantRead
  deriving DecidableEq

/-- The result of one `_recv_or_eagain` call. -/
inductive RecvResult where
  | eagain
  | bytes (d : NetData)
  deriving DecidableEq

/-- One `select()` wake-up during the send loop: either the ready mask
includes READ (the read branch runs first), or only WRITE is ready. -/
inductive SelectStep where
  | readable (r : RecvResult)
  | writableOnly (s : SendResult)
  deriving DecidableEq

/-- `_send_unless_readable`: push `chunk` while watching for readability.
A successful recv — any bytes, including empty ones — is fed to the state
machine and pre-empts the upload (`true`); a drained chunk returns `false`.
`none` models a loop whose `select()` never fires again (the script ran
out). -/
def sendUnlessReadable (sm : StateMachine) :
    List Byte → List SelectStep → Option (Bool × StateMachine × List SelectStep)
  | [], script => some (false, sm, script)
  | _ :: _, [] => none
  | chunk@(_ :: _), step :: rest =>
    match step with
    | .readable .eagain => sendUnlessReadable sm chunk rest
    | .readable (.bytes d) => some (true, sm.receiveData d, rest)
    | .writableOnly .eagain => sendUnlessReadable sm chunk rest
    | .writableOnly .wantRead => sendUnlessReadable sm chunk rest
    | .writableOnly (.wrote n) => sendUnlessReadable sm (chunk.drop n) rest

/-- The lazy chunk sequence of `send_request`: the serialized request
headers, then one `Data` per body chunk, then `EndOfMessage` — each h11
`send` happening only when the sending loop reaches that chunk. -/
def requestEvents (body : List (List Byte)) : List ClientEvent :=
  .request :: (body.map .data ++ [.endOfMessage])

/-- The `for chunk in request_chunks` loop of `send_request`: serialize each
event through the state machine, push it with `_send_unless_readable`, and
break out as soon as a pre-emptive read happened. -/
def sendPhase (ser : ClientEvent → List Byte) :
    StateMachine → List ClientEvent → List SelectStep →
    Option (StateMachine × List SelectStep × Bool)
  | sm, [], script => some (sm, script, false)
  | sm, ev :: rest, script =>
    match sendUnlessReadable (sm.send ev) (ser ev) script with
    | none => none
    | some (true, sm', script') => some (sm', script', true)
    | some (false, sm', script') => sendPhase ser sm' rest script'

/-- The `while not isinstance(response, h11.Response)` loop of
`send_request`: drain events until the response header block arrives. -/
def readUntilResponse :
    Nat → StateMachine → List NetData →
    Except EngineErr (Nat × Str × StateMachine × List NetData)
  | 0, _, _ => .error .outOfFuel
  | fuel + 1, sm, script =>
    match readUntilEvent sm script with
    | .error err => .error err
    | .ok (.ev (.response status version), sm', script') => .ok (status, version, sm', script')
    | .ok (_, sm', script') => readUntilResponse fuel sm' script'

/-- An HTTP request as the engine consumes it: the body already materialized
as an iterable of byte chunks (`_make_body_iterable`). -/
structure Request where
  method : Str
  target : Str
  body : List (List Byte)
  deriving DecidableEq

/-- The response metadata `send_request` returns (its body handle is the
engine itself). -/
structure Response where
  statusCode : Nat
  httpVersion : Str
  deriving DecidableEq

/-- `_SUPPORTED_VERSIONS = frozenset([b'1.0', b'1.1'])`. -/
def supportedVersions : List Str := ["1.0".data, "1.1".data]

/-- `SyncHTTP1Connection.send_request`: check the (IDLE, IDLE) precondition,
send the request chunks with pre-emption, read until the response header
block, reject unsupported HTTP versions, and hand back the response with the
updated engine.  `ser` abstracts h11's serialization of one client event to
wire bytes. -/
def sendRequest (ser : ClientEvent → List Byte) (e : Engine) (req : Request)
    (sendScript : List SelectStep) (recvScript : List NetData) (fuel : Nat) :
    Except EngineErr (Response × Engine) :=
  match e.sm with
  | none => .error .notConnected
  | some sm =>
    if sm.ourState ≠ .idle ∨ sm.theirState ≠ .idle then .error .protocolError
    else
      match sendPhase ser sm (requestEvents req.body) sendScript with
      | none => .error .wouldBlock
      | some (sm', _, _) =>
        match readUntilResponse fuel sm' recvScript with
        | .error err => .error err
        | .ok (status, version, sm'', _) =>
          if version ∉ supportedVersions then .error (.badVersion version)
          else .ok ({ statusCode := status, httpVersion := version }, { e with sm := some sm'' })

/-- What one call of `SyncHTTP1Connection.next` does: yield a body chunk,
signal `StopIteration`, propagate the read timeout, or hit the
`UnboundLocalError` of the `return data` line when the event is neither
`Data` nor `EndOfMessage`. -/
inductive NextOutcome where
  | yielded (bytes : List Byte)
  | stop
  | timeoutErr
  | crash
  deriving DecidableEq

/-- `SyncHTTP1Connection.next` (`__next__`): `StopIteration` when the state
machine is gone; otherwise read one event — `Data` yields its bytes,
`EndOfMessage` runs the reuse decision and signals `StopIteration`. -/
def Engine.next (e : Engine) (script : List NetData) :
    NextOutcome × Engine × List NetData :=
  match e.sm with
  | none => (.stop, e, script)
  | some sm =>
    match readUntilEvent sm script with
    | .error _ => (.timeoutErr, e, script)
    | .ok (.ev (.data bs), sm', rest) => (.yielded bs, { e with sm := some sm' }, rest)
    | .ok (.ev .endOfMessage, sm', rest) => (.stop, Engine.reset { e with sm := some sm' }, rest)
    | .ok (_, sm', rest) => (.crash, { e with sm := some sm' }, rest)

/-- `ssl_context.verify_mode`. -/
inductive VerifyMode where
  | certNone | certOptional | certRequired
  deriving DecidableEq

/-- The `assert_hostname` argument: absent (`None`), explicitly `False`, or
a hostname string. -/
inductive AssertHostname where
  | default
  | explicitFalse
  | hostname (h : Str)
  deriving DecidableEq

/-- Python truthiness of an optional string (`None` and `''` are falsy). -/
def pyTruthyStr : Option Str → Bool
  | none => false
  | some s => !s.isEmpty

/-- The `is_verified` assignment at the end of `_wrap_socket`:
`ssl_context.verify_mode == ssl.CERT_REQUIRED and (assert_hostname is not
False or fingerprint)`, read as a truth value. -/
def isVerifiedAfterWrap (verifyMode : VerifyMode) (assertHostname : AssertHostname)
    (fingerprint : Option Str) : Bool :=
  (verifyMode == .certRequired)
    && (assertHostname != .explicitFalse || pyTruthyStr fingerprint)

/-- The specification's wording of the `is_verified` rule, for comparison
with the code's `isVerifiedAfterWrap`: the context required verification,
and hostname checking was not explicitly disabled or a fingerprint was
supplied. -/
def specVerifiedClaim (verifyMode : VerifyMode) (assertHostname : AssertHostname)
    (fingerprint : Option Str) : Prop :=
  verifyMode = .certRequired
    ∧ (assertHostname ≠ .explicitFalse ∨ fingerprint.isSome = true)

instance (vm : VerifyMode) (ah : AssertHostname) (fp : Option Str) :
    Decidable (specVerifiedClaim vm ah fp) := by
  unfold specVerifiedClaim; infer_instance

/-! ## Concrete instances used by the claims -/

/-- The fields of the repository's `test_generator`/`test_len` tests, in the
input mapping's iteration order (the file part first). -/
def c2Fields : Fields :=
  [("somefile".data, .filepair "name.txt".data (.file "trolololol".data)),
   ("foo".data, .plain (.text "bar".data))]

/-- The body the test asserts, byte for byte. -/
def c2Expected : Str :=
  "--boundary\r\nContent-Disposition: form-data; name=\"somefile\"; filename=\"name.txt\"\r\nContent-Type: text/plain\r\n\r\ntrolololol\r\n--boundary\r\nContent-Disposition: form-data; name=\"foo\"\r\nContent-Type: text/plain\r\n\r\nbar\r\n--boundary--\r\n".data

/-- An engine that has just sent a request (client DONE) and received the
response headers and body (server SEND_BODY) with the end-of-message event
parsed and pending: the next iteration step terminates the response. -/
def c6Engine : Engine :=
  { sockOpen := true, selectorOpen := true,
    sm := some ⟨.done, .sendBody, [.endOfMessage], false⟩, isVerified := false }

/-- An engine whose exchange is fully complete (both roles DONE, nothing
pending), as `_reset` sees it on a reusable connection. -/
def c5Engine : Engine :=
  { sockOpen := true, selectorOpen := true,
    sm := some ⟨.done, .done, [], false⟩, isVerified := false }

/-- A state machine that is no longer (IDLE, IDLE): the request was sent
but the response is still being received. -/
def c3BusySM : StateMachine := ⟨.done, .sendBody, [], false⟩

/-- A fresh (IDLE, IDLE) state machine. -/
def c3IdleSM : StateMachine := ⟨.idle, .idle, [], false⟩

/-- An engine holding the fresh state machine. -/
def c3IdleEngine : Engine :=
  { sockOpen := true, selectorOpen := true, sm := some c3IdleSM, isVerified := false }

/-- An engine holding the busy state machine. -/
def c3BusyEngine : Engine :=
  { sockOpen := true, selectorOpen := true, sm := some c3BusySM, isVerified := false }

/-- A request with no body (`body=None` gives the empty chunk iterable). -/
def getRequest : Request := { method := "GET".data, target := "/".data, body := [] }

/-- A send-phase script that lets every chunk drain without pre-emption:
one fully-accepting writable wake-up per nonempty chunk. -/
def goodSendScript (ser : ClientEvent → List Byte) (events : List ClientEvent) :
    List SelectStep :=
  events.flatMap fun ev =>
    if (ser ev).length = 0 then [] else [.writableOnly (.wrote (ser ev).length)]

/-- Folding a sequence of client events through `send`. -/
def smSendAll (sm : StateMachine) (events : List ClientEvent) : StateMachine :=
  events.foldl StateMachine.send sm

/-! ## Helper lemmas: UTF-8 and the multipart encoder -/

theorem utf8Char_length_of_ascii {c : Char} (h : isAscii c = true) :
    (utf8Char c).length = 1 := by
  simp only [isAscii, decide_eq_true_eq] at h
  simp [utf8Char, h]

theorem encode_append (a b : Str) : encode (a ++ b) = encode a ++ encode b := by
  simp [encode]

theorem length_encode_of_ascii {s : Str} (h : ∀ c ∈ s, isAscii c = true) :
    (encode s).length = s.length := by
  induction s with
  | nil => rfl
  | cons c cs ih =>
    simp only [encode, List.flatMap_cons, List.length_append]
    rw [utf8Char_length_of_ascii (h c (by simp))]
    have := ih (fun x hx => h x (by simp [hx]))
    simp only [encode] at this
    simp [this]
    omega

theorem isAscii_digit {k : Nat} (h : k < 10) : isAscii (Char.ofNat (48 + k)) = true := by
  interval_cases k <;> decide

theorem natDigits_ascii (fuel : Nat) : ∀ n, ∀ c ∈ natDigits fuel n, isAscii c = true := by
  induction fuel with
  | zero => intro n c hc; simp [natDigits] at hc
  | succ fuel ih =>
    intro n c hc
    simp only [natDigits] at hc
    split at hc
    · rw [List.mem_singleton] at hc
      subst hc
      exact isAscii_digit (by omega)
    · rcases List.mem_append.mp hc with h1 | h2
      · exact ih _ c h1
      · rw [List.mem_singleton] at h2
        subst h2
        exact isAscii_digit (Nat.mod_lt _ (by omega))

theorem intRepr_ascii (n : Int) : ∀ c ∈ intRepr n, isAscii c = true := by
  cases n with
  | ofNat m => exact natDigits_ascii _ m
  | negSucc m =>
    intro c hc
    rcases List.mem_cons.mp hc with h1 | h2
    · subst h1; decide
    · exact natDigits_ascii _ _ c h2

theorem readChunksAux_flatten {csize : Nat} (h : 0 < csize) :
    ∀ fuel content, content.length ≤ fuel →
      (readChunksAux csize fuel content).flatten = content := by
  intro fuel
  induction fuel with
  | zero =>
    intro content hlen
    have : content = [] := List.eq_nil_of_length_eq_zero (by omega)
    subst this
    rfl
  | succ fuel ih =>
    intro content hlen
    by_cases hc : content = []
    · subst hc; simp [readChunksAux]
    · have hcs : ¬(csize = 0 ∨ content = []) := by
        simp [hc]; omega
      simp only [readChunksAux, hcs, if_false, List.flatten_cons]
      rw [ih (content.drop csize) ?hdrop]
      · exact List.take_append_drop csize content
      case hdrop =>
        have hpos : 0 < content.length := List.length_pos.mpr hc
        simp only [List.length_drop]
        omega

theorem readChunks_flatten {content : Str} {csize : Nat} (h : 0 < csize) :
    (readChunks content csize).flatten = content :=
  readChunksAux_flatten h content.length content (Nat.le_refl _)

theorem flatten_map_encode (l : List Str) : (l.map encode).flatten = encode l.flatten := by
  induction l with
  | nil => rfl
  | cons s rest ih => simp [List.flatten_cons, encode_append, ih]

theorem payloadChunks_flatten_length {csize : Nat} (h : 0 < csize) {p : Payload}
    (hp : payloadAscii p) :
    ((payloadChunks csize p).flatten).length = payloadSizeForLen p := by
  cases p with
  | text s =>
    simpa [payloadChunks, payloadSizeForLen] using length_encode_of_ascii hp
  | int n =>
    simpa [payloadChunks, payloadSizeForLen] using length_encode_of_ascii (intRepr_ascii n)
  | file content =>
    simp only [payloadChunks, payloadSizeForLen, flatten_map_encode, readChunks_flatten h]
    exact length_encode_of_ascii hp
  | iterchunks chunks =>
    simp only [payloadChunks, payloadSizeForLen, flatten_map_encode]
    rw [length_encode_of_ascii ?hall]
    · simp [List.length_flatten]
    case hall =>
      intro c hc
      rcases List.mem_flatten.mp hc with ⟨s, hs, hcs⟩
      exact hp s hs c hcs

theorem partHeaderChunks_emptied (boundary name : Str) (v : FieldValue) :
    partHeaderChunks boundary name v.emptied = partHeaderChunks boundary name v := by
  cases v <;> rfl

theorem payload_emptied (v : FieldValue) : v.emptied.payload = .text [] := by
  cases v <;> rfl

theorem fieldChunks_flatten_length {csize : Nat} (h : 0 < csize) (boundary name : Str)
    (v : FieldValue) (hp : payloadAscii v.payload) :
    ((fieldChunks boundary csize name v).flatten).length
      = ((fieldChunks boundary 8192 name v.emptied).flatten).length
          + payloadSizeForLen v.payload := by
  simp only [fieldChunks, List.flatten_append, List.length_append,
    partHeaderChunks_emptied, payload_emptied]
  rw [payloadChunks_flatten_length h hp]
  simp [payloadChunks, encode]
  omega

theorem bodyBytes_cons (nv : Str × FieldValue) (fs : Fields) (boundary : Str)
    (csize : Nat) :
    bodyBytes (nv :: fs) boundary csize
      = (fieldChunks boundary csize nv.1 nv.2).flatten ++ bodyBytes fs boundary csize := by
  simp [bodyBytes, multipartChunks, List.flatMap_cons, List.flatten_append]

theorem multipartLen_cons (nv : Str × FieldValue) (fs : Fields) (boundary : Str) :
    multipartLen (nv :: fs) boundary
      = payloadSizeForLen nv.2.payload
          + ((fieldChunks boundary 8192 nv.1 nv.2.emptied).flatten).length
          + multipartLen fs boundary := by
  simp only [multipartLen, List.map_cons, List.sum_cons, bodyBytes_cons, List.length_append]
  omega

/-! ## Claims C1, C2, C9: the multipart encoder -/

/-- C1 (as stated, refuted at a concrete input): for the one-field mapping
`{"a": u"é"}` — a value with a perfectly well-defined length — `__len__`
counts one character for the payload while iteration emits its two UTF-8
bytes, so the precomputed length differs from the iterated byte count. -/
theorem c1_counterexample :
    multipartLen [("a".data, .plain (.text "é".data))] "b".data
      ≠ (bodyBytes [("a".data, .plain (.text "é".data))] "b".data 8192).length := by
  decide

/-- C1 (amended): for every input mapping whose values all have well-defined
lengths *and consist of ASCII characters*, and any positive chunk size, the
value returned by `__len__` equals the total number of bytes produced by a
full iteration with the same boundary. -/
theorem c1_multipart_length_exact (fields : Fields) (boundary : Str) (csize : Nat)
    (hcs : 0 < csize) (hascii : ∀ nv ∈ fields, payloadAscii nv.2.payload) :
    multipartLen fields boundary = (bodyBytes fields boundary csize).length := by
  induction fields with
  | nil => simp [multipartLen, bodyBytes, multipartChunks]
  | cons nv fs ih =>
    rw [multipartLen_cons, bodyBytes_cons, List.length_append,
      fieldChunks_flatten_length hcs boundary nv.1 nv.2 (hascii nv (by simp)),
      ih (fun x hx => hascii x (by simp [hx]))]
    omega

/-- Witness for C1 (amended): the test's own mapping, with boundary
`"boundary"` and the default chunk size. -/
theorem c1_multipart_length_exact_witness :
    multipartLen c2Fields "boundary".data
      = (bodyBytes c2Fields "boundary".data 8192).length :=
  c1_multipart_length_exact c2Fields "boundary".data 8192 (by decide) (by decide)

/-- C2: for the mapping `{"somefile": ("name.txt", readable("trolololol")),
"foo": "bar"}` in that iteration order, with boundary `"boundary"`,
concatenating all chunks of a full iteration produces exactly the expected
body, the file part first because iteration follows the mapping's order. -/
theorem c2_wire_format :
    bodyBytes c2Fields "boundary".data 8192 = encode c2Expected := by
  decide

/-- C9: the claimed invariant is the intended file-like contract, but the
code violates it — `read` fails to clear `leftover` when the iterator is
exhausted with `count ≤ size`.  At chunks `["ab"]`, three `read(1)` calls
return `"a"`, `"b"`, `"b"`: the second `"b"` is a duplicate, the
concatenation `"abb"` differs from the underlying `"ab"`, and reads never
become empty. -/
theorem c9_read_duplicates :
    (IterStreamer.readSeq ⟨["ab".data], []⟩ [1, 1, 1]).1
        = ["a".data, "b".data, "b".data]
    ∧ ((IterStreamer.readSeq ⟨["ab".data], []⟩ [1, 1, 1]).1).flatten
        ≠ (["ab".data] : List Str).flatten := by
  decide

/-! ## Helper lemmas: the connection engine -/

theorem nextEvent_response {sm sm' : StateMachine} {status : Nat} {version : Str}
    (h : sm.nextEvent = (.ev (.response status version), sm')) :
    sm'.theirState = .sendBody := by
  unfold StateMachine.nextEvent at h
  cases hp : sm.pending with
  | nil =>
    rw [hp] at h
    by_cases he : sm.eofSeen <;> simp [he] at h
  | cons e rest =>
    rw [hp] at h
    cases e with
    | response st v => cases h; rfl
    | data bs => simp at h
    | endOfMessage => simp at h

theorem readUntilEvent_error {sm : StateMachine} {err : EngineErr} :
    ∀ {script : List NetData}, readUntilEvent sm script = .error err →
      err = .readTimeout := by
  intro script
  induction script generalizing sm with
  | nil =>
    intro h
    unfold readUntilEvent at h
    rcases hne : sm.nextEvent with ⟨e, sm'⟩
    rw [hne] at h
    cases e <;> simp_all
  | cons d rest ih =>
    intro h
    unfold readUntilEvent at h
    rcases hne : sm.nextEvent with ⟨e, sm'⟩
    rw [hne] at h
    cases e with
    | needData => exact ih h
    | connectionClosed => simp at h
    | ev e' => simp at h

theorem readUntilEvent_response {status : Nat} {version : Str}
    {sm sm' : StateMachine} {rest : List NetData} :
    ∀ {script : List NetData},
      readUntilEvent sm script = .ok (.ev (.response status version), sm', rest) →
      sm'.theirState = .sendBody := by
  intro script
  induction script generalizing sm with
  | nil =>
    intro h
    unfold readUntilEvent at h
    rcases hne : sm.nextEvent with ⟨e, sm₂⟩
    rw [hne] at h
    cases e with
    | needData => simp at h
    | connectionClosed => simp at h
    | ev e' =>
      simp only [Except.ok.injEq, Prod.mk.injEq] at h
      obtain ⟨h1, h2, h3⟩ := h
      injection h1 with h1
      subst h1
      subst h2
      exact nextEvent_response hne
  | cons d drest ih =>
    intro h
    unfold readUntilEvent at h
    rcases hne : sm.nextEvent with ⟨e, sm₂⟩
    rw [hne] at h
    cases e with
    | needData => exact ih h
    | connectionClosed => simp at h
    | ev e' =>
      simp only [Except.ok.injEq, Prod.mk.injEq] at h
      obtain ⟨h1, h2, h3⟩ := h
      injection h1 with h1
      subst h1
      subst h2
      exact nextEvent_response hne

theorem readUntilResponse_no_protocolError :
    ∀ (fuel : Nat) (sm : StateMachine) (script : List NetData),
      readUntilResponse fuel sm script ≠ .error .protocolError := by
  intro fuel
  induction fuel with
  | zero => intro sm script h; simp [readUntilResponse] at h
  | succ fuel ih =>
    intro sm script h
    unfold readUntilResponse at h
    rcases hre : readUntilEvent sm script with err | ⟨e, sm', script'⟩
    · rw [hre] at h
      simp only at h
      cases h
      exact absurd (readUntilEvent_error hre) (by simp)
    · rw [hre] at h
      rcases e with _ | _ | e' <;> try exact ih _ _ h
      cases e' with
      | response st v => simp at h
      | data bs => exact ih _ _ h
      | endOfMessage => exact ih _ _ h

theorem readUntilResponse_ok_theirState {fuel : Nat} {sm sm' : StateMachine}
    {script script' : List NetData} {status : Nat} {version : Str} :
    readUntilResponse fuel sm script = .ok (status, version, sm', script') →
    sm'.theirState = .sendBody := by
  induction fuel generalizing sm script with
  | zero => intro h; simp [readUntilResponse] at h
  | succ fuel ih =>
    intro h
    unfold readUntilResponse at h
    rcases hre : readUntilEvent sm script with err | ⟨e, sm₂, script₂⟩
    · rw [hre] at h; simp at h
    · rw [hre] at h
      rcases e with _ | _ | e'
      · exact ih h
      · exact ih h
      · cases e' with
        | response st v =>
          simp only [Except.ok.injEq, Prod.mk.injEq] at h
          obtain ⟨h1, h2, h3, h4⟩ := h
          subst h3
          exact readUntilEvent_response hre
        | data bs => exact ih h
        | endOfMessage => exact ih h

theorem sendUnlessReadable_nil_chunk (sm : StateMachine) (script : List SelectStep) :
    sendUnlessReadable sm [] script = some (false, sm, script) := by
  cases script <;> rfl

theorem sendUnlessReadable_wrote (sm : StateMachine) (b : Byte) (bs : List Byte)
    (n : Nat) (rest : List SelectStep) :
    sendUnlessReadable sm (b :: bs) (.writableOnly (.wrote n) :: rest)
      = sendUnlessReadable sm ((b :: bs).drop n) rest := rfl

theorem sendPhase_goodScript (ser : ClientEvent → List Byte) :
    ∀ (events : List ClientEvent) (sm : StateMachine) (rest : List SelectStep),
      sendPhase ser sm events (goodSendScript ser events ++ rest)
        = some (smSendAll sm events, rest, false) := by
  intro events
  induction events with
  | nil => intro sm rest; simp [sendPhase, goodSendScript, smSendAll]
  | cons ev evs ih =>
    intro sm rest
    simp only [goodSendScript, List.flatMap_cons, List.append_assoc]
    by_cases h : (ser ev).length = 0
    · have hnil : ser ev = [] := List.eq_nil_of_length_eq_zero h
      simp only [h, if_true, List.nil_append]
      rw [sendPhase, hnil, sendUnlessReadable_nil_chunk]
      simpa [smSendAll, goodSendScript] using ih (sm.send ev) rest
    · simp only [h, if_false, List.cons_append, List.nil_append]
      rcases hc : ser ev with _ | ⟨b, bs⟩
      · exact absurd (by simp [hc]) h
      · rw [sendPhase, hc, sendUnlessReadable_wrote, List.drop_length,
          sendUnlessReadable_nil_chunk]
        simpa [smSendAll, goodSendScript] using ih (sm.send ev) rest

theorem smSendAll_data (body : List (List Byte)) :
    ∀ sm : StateMachine, smSendAll sm (body.map .data) = sm := by
  induction body with
  | nil => intro sm; rfl
  | cons c cs ih => intro sm; simpa [smSendAll, StateMachine.send] using ih sm

theorem smSendAll_requestEvents (sm : StateMachine) (body : List (List Byte)) :
    smSendAll sm (requestEvents body) = { sm with ourState := .done } := by
  simp only [requestEvents, smSendAll, List.foldl_cons, List.foldl_append]
  have h := smSendAll_data body (sm.send .request)
  simp only [smSendAll] at h
  rw [h]
  rfl

theorem sendRequest_ok_theirState {ser : ClientEvent → List Byte} {e : Engine}
    {req : Request} {ss : List SelectStep} {rs : List NetData} {fuel : Nat}
    {r : Response} {e' : Engine}
    (h : sendRequest ser e req ss rs fuel = .ok (r, e')) :
    ∃ sm'', e'.sm = some sm'' ∧ sm''.theirState = .sendBody := by
  rcases hsm : e.sm with _ | sm
  · simp only [sendRequest, hsm] at h
    exact Except.noConfusion h
  · simp only [sendRequest, hsm] at h
    by_cases hidle : sm.ourState ≠ .idle ∨ sm.theirState ≠ .idle
    · rw [if_pos hidle] at h; simp at h
    · rw [if_neg hidle] at h
      rcases hsp : sendPhase ser sm (requestEvents req.body) ss with _ | ⟨sm1, ss1, dr⟩
      · simp only [hsp] at h
        exact Except.noConfusion h
      · simp only [hsp] at h
        rcases hrr : readUntilResponse fuel sm1 rs with err | ⟨st, v, sm2, rs2⟩
        · simp only [hrr] at h
          exact Except.noConfusion h
        · simp only [hrr] at h
          by_cases hv : v ∉ supportedVersions
          · rw [if_pos hv] at h; simp at h
          · rw [if_neg hv] at h
            simp only [Except.ok.injEq, Prod.mk.injEq] at h
            refine ⟨sm2, ?_, readUntilResponse_ok_theirState hrr⟩
            rw [← h.2]

theorem readUntilEvent_nil_timeout {sm : StateMachine} (hpend : sm.pending = [])
    (heof : sm.eofSeen = false) : readUntilEvent sm [] = .error .readTimeout := by
  have hne : sm.nextEvent = (.needData, sm) := by
    simp [StateMachine.nextEvent, hpend, heof]
  simp [readUntilEvent, hne]

theorem close_released (e : Engine) :
    e.close.sockOpen = false ∧ e.close.selectorOpen = false ∧ e.close.sm = none := by
  unfold Engine.close
  by_cases h1 : e.sockOpen <;> by_cases h2 : e.selectorOpen <;> simp [h1, h2]

theorem close_eq (e : Engine) :
    e.close = { e with sockOpen := false, selectorOpen := false, sm := none } := by
  unfold Engine.close
  by_cases h1 : e.sockOpen <;> by_cases h2 : e.selectorOpen <;> simp [h1, h2]

/-! ## Claims C3–C8 and C10: the connection engine -/

/-- C3: `send_request` fails with `ProtocolError` whenever the state machine
is not at (IDLE, IDLE); a second `send_request` right after a successful one
(the response not yet consumed) fails with `ProtocolError`; and when both
roles are IDLE the call never ends in `ProtocolError` — it proceeds past the
precondition check. -/
theorem c3_send_request_precondition :
    (∀ (ser : ClientEvent → List Byte) (e : Engine) (req : Request)
        (ss : List SelectStep) (rs : List NetData) (fuel : Nat) (sm : StateMachine),
        e.sm = some sm → ¬(sm.ourState = .idle ∧ sm.theirState = .idle) →
        sendRequest ser e req ss rs fuel = .error .protocolError)
    ∧ (∀ (ser : ClientEvent → List Byte) (e : Engine) (req : Request)
        (ss : List SelectStep) (rs : List NetData) (fuel : Nat) (sm : StateMachine),
        e.sm = some sm → sm.ourState = .idle → sm.theirState = .idle →
        sendRequest ser e req ss rs fuel ≠ .error .protocolError)
    ∧ (∀ (ser : ClientEvent → List Byte) (e : Engine) (req : Request)
        (ss : List SelectStep) (rs : List NetData) (fuel : Nat)
        (r : Response) (e' : Engine),
        sendRequest ser e req ss rs fuel = .ok (r, e') →
        ∀ (ser₂ : ClientEvent → List Byte) (req₂ : Request)
          (ss₂ : List SelectStep) (rs₂ : List NetData) (fuel₂ : Nat),
          sendRequest ser₂ e' req₂ ss₂ rs₂ fuel₂ = .error .protocolError) := by
  refine ⟨?busy, ?idle, ?second⟩
  case busy =>
    intro ser e req ss rs fuel sm hsm hbusy
    simp only [sendRequest, hsm]
    rw [if_pos (by tauto)]
  case idle =>
    intro ser e req ss rs fuel sm hsm hour htheir hcontra
    simp only [sendRequest, hsm] at hcontra
    rw [if_neg (by simp [hour, htheir])] at hcontra
    rcases hsp : sendPhase ser sm (requestEvents req.body) ss with _ | ⟨sm1, ss1, dr⟩
    · simp only [hsp] at hcontra
      exact EngineErr.noConfusion (Except.error.inj hcontra)
    · simp only [hsp] at hcontra
      rcases hrr : readUntilResponse fuel sm1 rs with err | ⟨st, v, sm2, rs2⟩
      · simp only [hrr, Except.error.injEq] at hcontra
        subst hcontra
        exact readUntilResponse_no_protocolError fuel sm1 rs hrr
      · simp only [hrr] at hcontra
        by_cases hv : v ∉ supportedVersions
        · rw [if_pos hv] at hcontra; simp at hcontra
        · rw [if_neg hv] at hcontra; simp at hcontra
  case second =>
    intro ser e req ss rs fuel r e' hok ser₂ req₂ ss₂ rs₂ fuel₂
    obtain ⟨sm'', hsm'', htheir⟩ := sendRequest_ok_theirState hok
    simp only [sendRequest, hsm'']
    rw [if_pos (by rw [htheir]; right; simp)]

/-- Witness for C3: a busy engine (request sent, response pending) is
refused with `ProtocolError`; a fresh (IDLE, IDLE) engine is not. -/
theorem c3_witness :
    sendRequest (fun _ => []) c3BusyEngine getRequest [] [] 0 = .error .protocolError
    ∧ sendRequest (fun _ => []) c3IdleEngine getRequest [] [] 0 ≠ .error .protocolError :=
  ⟨c3_send_request_precondition.1 (fun _ => []) c3BusyEngine getRequest [] [] 0
      c3BusySM rfl (by decide),
   c3_send_request_precondition.2.1 (fun _ => []) c3IdleEngine getRequest [] [] 0
      c3IdleSM rfl rfl rfl⟩

/-- C4: from a fresh connection, when the server's response carries HTTP
version `v`, `send_request` fails with `BadVersionError v` exactly when
`v ∉ {1.0, 1.1}`, and returns the response when `v ∈ {1.0, 1.1}`. -/
theorem c4_version_check (ser : ClientEvent → List Byte) (e : Engine)
    (sm : StateMachine) (req : Request) (st : Nat) (v : Str)
    (hsm : e.sm = some sm) (hour : sm.ourState = .idle)
    (htheir : sm.theirState = .idle) (hpend : sm.pending = [])
    (heof : sm.eofSeen = false) :
    (v ∉ supportedVersions →
      sendRequest ser e req (goodSendScript ser (requestEvents req.body))
          [.events [.response st v]] 1 = .error (.badVersion v))
    ∧ (v ∈ supportedVersions →
      sendRequest ser e req (goodSendScript ser (requestEvents req.body))
          [.events [.response st v]] 1
        = .ok ({ statusCode := st, httpVersion := v },
               { e with sm := some ⟨.done, .sendBody, [], false⟩ })) := by
  have hsmeq : sm = ⟨.idle, .idle, [], false⟩ := by
    cases sm; simp_all
  subst hsmeq
  have hsp := sendPhase_goodScript ser (requestEvents req.body) ⟨.idle, .idle, [], false⟩ []
  rw [List.append_nil, smSendAll_requestEvents] at hsp
  have hred : sendRequest ser e req (goodSendScript ser (requestEvents req.body))
      [.events [.response st v]] 1
      = if v ∉ supportedVersions then .error (.badVersion v)
        else .ok ({ statusCode := st, httpVersion := v },
                  { e with sm := some ⟨.done, .sendBody, [], false⟩ }) := by
    simp only [sendRequest, hsm]
    rw [if_neg (by simp)]
    simp only [hsp]
    rfl
  constructor
  · intro hv; rw [hred, if_pos hv]
  · intro hv; rw [hred, if_neg (by simp [hv])]

/-- Witness for C4: a synthetic `HTTP/2.0` response makes `send_request`
fail with `BadVersionError`, and a `HTTP/1.1` one is returned. -/
theorem c4_witness :
    sendRequest (fun _ => []) c3IdleEngine getRequest
        (goodSendScript (fun _ => []) (requestEvents getRequest.body))
        [.events [.response 200 "2.0".data]] 1
      = .error (.badVersion "2.0".data)
    ∧ sendRequest (fun _ => []) c3IdleEngine getRequest
        (goodSendScript (fun _ => []) (requestEvents getRequest.body))
        [.events [.response 200 "1.1".data]] 1
      = .ok ({ statusCode := 200, httpVersion := "1.1".data },
             { c3IdleEngine with sm := some ⟨.done, .sendBody, [], false⟩ }) :=
  ⟨(c4_version_check (fun _ => []) c3IdleEngine c3IdleSM getRequest 200 "2.0".data
      rfl rfl rfl rfl rfl).1 (by decide),
   (c4_version_check (fun _ => []) c3IdleEngine c3IdleSM getRequest 200 "1.1".data
      rfl rfl rfl rfl rfl).2 (by decide)⟩

/-- C5: after end-of-message, if the one `next_event` query reports
`NEED_DATA` and both roles are in {IDLE, DONE}, the connection is kept —
socket and selector untouched, the state machine still present, and if both
roles are DONE a new cycle brings both back to IDLE; in every other case
the reuse decision closes the connection, releasing socket, selector and
state machine. -/
theorem c5_reuse_decision (e : Engine) (sm : StateMachine) (hsm : e.sm = some sm) :
    ((sm.nextEvent.1 = .needData
        ∧ sm.nextEvent.2.ourState ∈ continueStates
        ∧ sm.nextEvent.2.theirState ∈ continueStates) →
      (e.reset.sockOpen = e.sockOpen ∧ e.reset.selectorOpen = e.selectorOpen
        ∧ e.reset.sm.isSome = true
        ∧ (sm.nextEvent.2.ourState = .done ∧ sm.nextEvent.2.theirState = .done →
            ∃ sm₂, e.reset.sm = some sm₂ ∧ sm₂.ourState = .idle
              ∧ sm₂.theirState = .idle)))
    ∧ (¬(sm.nextEvent.1 = .needData
        ∧ sm.nextEvent.2.ourState ∈ continueStates
        ∧ sm.nextEvent.2.theirState ∈ continueStates) →
      (e.reset = e.close ∧ e.reset.sockOpen = false ∧ e.reset.selectorOpen = false
        ∧ e.reset.sm = none)) := by
  constructor
  · intro hk
    have hmc : ¬(sm.nextEvent.1 ≠ .needData
        ∨ sm.nextEvent.2.ourState ∉ continueStates
        ∨ sm.nextEvent.2.theirState ∉ continueStates) := by tauto
    simp only [Engine.reset, hsm]
    rw [if_neg hmc]
    by_cases hd : sm.nextEvent.2.ourState = .done ∧ sm.nextEvent.2.theirState = .done
    · rw [if_pos hd]
      exact ⟨rfl, rfl, rfl, fun _ => ⟨_, rfl, rfl, rfl⟩⟩
    · rw [if_neg hd]
      exact ⟨rfl, rfl, rfl, fun hdd => absurd hdd hd⟩
  · intro hk
    have hmc : sm.nextEvent.1 ≠ .needData
        ∨ sm.nextEvent.2.ourState ∉ continueStates
        ∨ sm.nextEvent.2.theirState ∉ continueStates := by tauto
    simp only [Engine.reset, hsm]
    rw [if_pos hmc]
    exact ⟨rfl, (close_released e).1, (close_released e).2.1, (close_released e).2.2⟩

/-- Witness for C5: a finished exchange (both roles DONE, nothing pending,
no EOF) keeps the socket open. -/
theorem c5_witness :
    (Engine.reset c5Engine).sockOpen = c5Engine.sockOpen :=
  ((c5_reuse_decision c5Engine ⟨.done, .done, [], false⟩ rfl).1 (by decide)).1

/-- C6 (as stated, refuted at a concrete input): from an engine whose next
event is `EndOfMessage` on a reusable connection, the iteration step
terminates and the reuse decision keeps the connection — but the *next*
iteration step does not signal end: it waits for fresh data and surfaces a
read timeout. -/
theorem c6_counterexample :
    (Engine.next c6Engine []).1 = .stop
    ∧ ((Engine.next c6Engine []).2.1.sm).isSome = true
    ∧ (Engine.next (Engine.next c6Engine []).2.1 []).1 ≠ .stop := by
  decide

/-- C6 (amended): after the body iterator has terminated, further iteration
signals end-of-iteration whenever the reuse decision *closed* the
connection (the state machine was dropped); when the reuse decision kept
the connection open, a further step instead waits for new data, surfacing
a read timeout when none arrives. -/
theorem c6_iteration_after_termination :
    (∀ (e : Engine) (script : List NetData), e.sm = none →
      Engine.next e script = (.stop, e, script))
    ∧ (∀ (e : Engine) (sm : StateMachine), e.sm = some sm →
      sm.pending = [] → sm.eofSeen = false →
      Engine.next e [] = (.timeoutErr, e, [])) := by
  constructor
  · intro e script hsm
    simp only [Engine.next, hsm]
  · intro e sm hsm hpend heof
    simp only [Engine.next, hsm, readUntilEvent_nil_timeout hpend heof]

/-- Witness for C6 (amended): a closed engine signals end forever; a
reusable idle engine with no incoming data times out instead. -/
theorem c6_witness :
    Engine.next ⟨false, false, none, false⟩ []
        = (.stop, ⟨false, false, none, false⟩, [])
    ∧ Engine.next c3IdleEngine [] = (.timeoutErr, c3IdleEngine, []) :=
  ⟨c6_iteration_after_termination.1 ⟨false, false, none, false⟩ [] rfl,
   c6_iteration_after_termination.2 c3IdleEngine c3IdleSM rfl rfl rfl⟩

/-- C7: `close()` is idempotent — a second call yields the same engine, and
any close (including on a never-connected engine) leaves the fully-released
state: no socket, no selector, no state machine. -/
theorem c7_close_idempotent (e : Engine) :
    e.close.close = e.close
    ∧ e.close.sockOpen = false ∧ e.close.selectorOpen = false ∧ e.close.sm = none := by
  refine ⟨?_, (close_released e).1, (close_released e).2.1, (close_released e).2.2⟩
  rw [close_eq e, close_eq]

/-- C8 (as stated, refuted at a concrete input): with a verifying context,
hostname checking explicitly disabled, and an *empty-string* fingerprint —
a supplied fingerprint — the code leaves `is_verified` falsy (Python
truthiness of `''`), while the claim demands true. -/
theorem c8_counterexample :
    ¬(isVerifiedAfterWrap .certRequired .explicitFalse (some []) = true
      ↔ specVerifiedClaim .certRequired .explicitFalse (some [])) := by
  decide

/-- C8 (amended): `is_verified` is true iff the context required
verification and (hostname checking was not explicitly disabled or a
*non-empty* fingerprint was supplied); an empty-string fingerprint counts
as absent. -/
theorem c8_is_verified_iff (vm : VerifyMode) (ah : AssertHostname)
    (fp : Option Str) :
    isVerifiedAfterWrap vm ah fp = true
      ↔ (vm = .certRequired
          ∧ (ah ≠ .explicitFalse ∨ ∃ s, fp = some s ∧ s ≠ [])) := by
  cases vm <;> cases ah <;> rcases fp with _ | s <;>
    simp [isVerifiedAfterWrap, pyTruthyStr, specVerifiedClaim,
      List.isEmpty_iff]

/-- C10: in the send-unless-readable loop, a recv that returns zero bytes
(the peer closed during the upload) is treated as pre-emption, not as an
error: the empty input is fed to the state machine — recording EOF — and
the loop returns `true`, switching the engine from sending to receiving. -/
theorem c10_zero_recv_preempts (sm : StateMachine) (chunk : List Byte)
    (rest : List SelectStep) (h : chunk ≠ []) :
    sendUnlessReadable sm chunk (.readable (.bytes .eof) :: rest)
        = some (true, sm.receiveData .eof, rest)
    ∧ (sm.receiveData .eof).eofSeen = true := by
  refine ⟨?_, rfl⟩
  cases chunk with
  | nil => exact absurd rfl h
  | cons b bs => rfl

/-- Witness for C10: one pending byte, peer closes — the loop pre-empts. -/
theorem c10_witness :
    sendUnlessReadable c3IdleSM [0] [.readable (.bytes .eof)]
        = some (true, StateMachine.receiveData c3IdleSM .eof, []) :=
  (c10_zero_recv_preempts c3IdleSM [0] [] (by decide)).1

end Urllib3
